import Mathlib

/-!
# Verification of the `datahandling` spectral-analysis library

Shallow embedding of the numerical core of
`datahandling/datahandling/datahandling.py` and proofs about it.

Real-valued formulas (the physical-parameter extraction, the PSD model)
are embedded over `ℝ`; index/search/filter bookkeeping (nearest-value
lookup, width ladders, collision counting, FFT bin zeroing) is embedded
over `ℚ` and `List`, keeping every definition executable.  External
library routines (scipy's optimizer, filter application, fft/ifft) enter
as explicit function parameters; everything the repository itself
computes is translated directly from the Python source.
-/

namespace Datahandling

/-- Models Python's `bisect.bisect_left` through its contract on an
ascending-sorted list: the length of the maximal prefix of elements
strictly below `x`, i.e. the leftmost insertion point for `x`.
Used by `take_closest` (source line 775). -/
def bisect_left (l : List ℚ) (x : ℚ) : ℕ :=
  match l with
  | [] => 0
  | a :: t => if a < x then bisect_left t x + 1 else 0

/-- Source `take_closest` (lines 758-785).  Assumes the list is sorted;
returns the value closest to `myNumber`, preferring the smaller value on
a tie.  Python raises `IndexError` on an empty list; this is modelled by
returning `none`. -/
def take_closest (myList : List ℚ) (myNumber : ℚ) : Option ℚ :=
  match myList with
  | [] => none
  | a :: t =>
    let L := a :: t
    let pos := bisect_left L myNumber
    if pos = 0 then some a
    else if pos = L.length then some (L.getLast (List.cons_ne_nil a t))
    else
      let before := L.getD (pos - 1) a
      let after := L.getD pos a
      if after - myNumber < myNumber - before then some after else some before

/-- Source `count_collisions` (lines 1971-1995), as the structural
recursion over the flag list carrying the running index `i` and the
previous flag value `lastval` (initialised to `True` in the source). -/
def countLoop : List Bool → Bool → ℕ → ℕ × List ℕ
  | [], _, _ => (0, [])
  | v :: rest, lastval, i =>
    let r := countLoop rest v (i + 1)
    if v = true ∧ lastval = false then (r.1 + 1, i :: r.2) else r

/-- Source `count_collisions` (lines 1971-1995): count of `false → true`
transitions and the indices at which they happen, starting with
`lastval = True`. -/
def count_collisions (Collisions : List Bool) : ℕ × List ℕ :=
  countLoop Collisions true 0

/-- The first sample offsets of the out-of-tolerance (`true`) runs of a
flag list, with `prev` the flag preceding the current position `i`.  A
run starts where a `true` follows a `false` (or leads the list when
`prev = false`). -/
def runStartsFrom : List Bool → Bool → ℕ → List ℕ
  | [], _, _ => []
  | v :: rest, prev, i =>
    if v = true ∧ prev = false then i :: runStartsFrom rest v (i + 1)
    else runStartsFrom rest v (i + 1)

/-- First sample offsets of all `true` runs of the list (a leading run
counts, i.e. the virtual predecessor of index 0 is `false`). -/
def trueRunStarts (l : List Bool) : List ℕ :=
  runStartsFrom l false 0

/-- Source `_PSD_fitting_eqn` (lines 788-820):
`A / ((OmegaTrap**2 - omega**2)**2 + (omega * gamma)**2)`. -/
noncomputable def PSD_fitting_eqn (A OmegaTrap gamma omega : ℝ) : ℝ :=
  A / ((OmegaTrap ^ 2 - omega ^ 2) ^ 2 + (omega * gamma) ^ 2)

/-- Source `calc_theory_PSD_curve_fit` (lines 904-910, inside `fit_PSD`):
computes `10*log10(_PSD_fitting_eqn(A, TrapFreq, BigGamma, freqs))`, but
returns the constant `1e9` whenever any of the three parameters is
negative.  (The source computes the log first and then discards it in the
negative case; the returned value is the same.) -/
noncomputable def calc_theory_PSD_curve_fit (freqs A TrapFreq BigGamma : ℝ) : ℝ :=
  if A < 0 ∨ TrapFreq < 0 ∨ BigGamma < 0 then 1e9
  else 10 * Real.logb 10 (PSD_fitting_eqn A TrapFreq BigGamma freqs)

/-- Source `extract_parameters` (lines 963-1025).  Pressure arrives in
millibar and is converted to pascal by multiplying by 100; the fixed
constants are `rho = 2200`, `dm = 0.372e-9`, `T0 = 300`, `kB = 1.38e-23`
and `eta = 18.27e-6` exactly as in the source.  Returns
`((radius, mass, conversionFactor), (err_radius, err_mass, err_conversionFactor))`.
The trap frequency is not an argument: the transform depends only on the
fitted `A` and `Gamma0`. -/
noncomputable def extract_parameters (Pressure PressureErr A AErr Gamma0 Gamma0Err : ℝ) :
    (ℝ × ℝ × ℝ) × (ℝ × ℝ × ℝ) :=
  let P := 100 * Pressure
  let rho : ℝ := 2200
  let dm : ℝ := 0.372e-9
  let T0 : ℝ := 300
  let kB : ℝ := 1.38e-23
  let eta : ℝ := 18.27e-6
  let radius := (0.169 * 9 * Real.pi * eta * dm ^ 2) /
    (Real.sqrt 2 * rho * kB * T0) * P / Gamma0
  let err_radius := radius *
    Real.sqrt (((PressureErr * P) / P) ^ 2 + (Gamma0Err / Gamma0) ^ 2)
  let mass := rho * ((4 * Real.pi * radius ^ 3) / 3)
  let err_mass := mass * 2 * err_radius / radius
  let conversionFactor := Real.sqrt (A * Real.pi * mass / (kB * T0 * Gamma0))
  let err_conversionFactor := conversionFactor *
    Real.sqrt ((AErr / A) ^ 2 + (err_mass / mass) ^ 2 + (Gamma0Err / Gamma0) ^ 2)
  ((radius, mass, conversionFactor), (err_radius, err_mass, err_conversionFactor))

/-- Source `IIR_filter_design` (lines 1474-1514), embedded up to the
external `scipy.signal.iirdesign` call: validates the Nyquist-margin
condition (raising `ValueError` — modelled as `Except.error` — exactly
when `CentralFreq + bandwidth/2 + transitionWidth > SampleFreq/2`),
normalizes all frequencies by the Nyquist frequency, and on success
carries the `(bandpass, bandstop)` edge pairs handed to the external
coefficient designer.  `GainStop` and `GainPass` are forwarded to the
external designer and play no role in validation or edge computation. -/
def IIR_filter_design (CentralFreq bandwidth transitionWidth SampleFreq GainStop GainPass : ℚ) :
    Except String ((ℚ × ℚ) × (ℚ × ℚ)) :=
  let NyquistFreq := SampleFreq / 2
  if CentralFreq + bandwidth / 2 + transitionWidth > NyquistFreq then
    Except.error
      "Need a higher Sample Frequency for this Central Freq, Bandwidth and transition Width"
  else
    let CentralFreqNormed := CentralFreq / NyquistFreq
    let bandwidthNormed := bandwidth / NyquistFreq
    let transitionWidthNormed := transitionWidth / NyquistFreq
    Except.ok
      ((CentralFreqNormed - bandwidthNormed / 2, CentralFreqNormed + bandwidthNormed / 2),
        (CentralFreqNormed - bandwidthNormed / 2 - transitionWidthNormed,
          CentralFreqNormed + bandwidthNormed / 2 + transitionWidthNormed))

/-- Python slice `l[i:j]` (for non-negative indices). -/
def sliceL (l : List ℚ) (i j : ℕ) : List ℚ := (l.drop i).take (j - i)

/-- `numpy.fft.fftfreq n`: the DFT sample-frequency grid
`[0, 1, …, ⌈n/2⌉-1, -⌊n/2⌋, …, -1] / n`. -/
def fftfreq (n : ℕ) : List ℚ :=
  (List.range n).map (fun i => if i < (n + 1) / 2 then (i : ℚ) / n else ((i : ℚ) - n) / n)

/-- Source `IFFT_filter` (lines 1440-1471): forward-transforms the
signal (external `scipy.fftpack.fft`, passed in as `fft`), zeroes every
spectral bin whose frequency `fftfreq(len) * SampleFreq` lies outside
`[lowerFreq, upperFreq]` — the bin-zeroing loop is the repository's own
code — inverse-transforms (external `ifft`), doubles, and takes the real
part. -/
def IFFT_filter (fft : List ℚ → List (ℚ × ℚ)) (ifft : List (ℚ × ℚ) → List (ℚ × ℚ))
    (Signal : List ℚ) (SampleFreq lowerFreq upperFreq : ℚ) : List ℚ :=
  let Signalfft := fft Signal
  let freqs := (fftfreq Signal.length).map (· * SampleFreq)
  let zeroed := List.zipWith
    (fun f c => if f < lowerFreq ∨ f > upperFreq then ((0 : ℚ), (0 : ℚ)) else c)
    freqs Signalfft
  (ifft zeroed).map (fun c => 2 * c.1)

/-- Source `get_ZXY_data_IFFT` (lines 1257-1300), plotting omitted.  The
`timeStart = "Default"` / `timeEnd = "Default"` branches resolve to
`time[0]` / `time[-1]`; the caller passes the resolved values here.
Note the source's band edges: the z band uses `zf ± zwidth/2`, but the x
and y bands are `xf ± zwidth/2` and `yf ± zwidth/2` — the `zwidth`
parameter is reused for all three axes (lines 1269-1276), while `xwidth`
and `ywidth` go unused, contradicting the function's own docstring. -/
def get_ZXY_data_IFFT (fft : List ℚ → List (ℚ × ℚ)) (ifft : List (ℚ × ℚ) → List (ℚ × ℚ))
    (time voltage : List ℚ) (SampleFreq zf xf yf zwidth xwidth ywidth timeStart timeEnd : ℚ) :
    List ℚ × List ℚ × List ℚ × List ℚ :=
  let StartIndex := time.indexOf ((take_closest time timeStart).getD 0)
  let EndIndex := time.indexOf ((take_closest time timeEnd).getD 0)
  let input_signal := sliceL voltage StartIndex EndIndex
  let zdata := IFFT_filter fft ifft input_signal SampleFreq (zf - zwidth / 2) (zf + zwidth / 2)
  let xdata := IFFT_filter fft ifft input_signal SampleFreq (xf - zwidth / 2) (xf + zwidth / 2)
  let ydata := IFFT_filter fft ifft input_signal SampleFreq (yf - zwidth / 2) (yf + zwidth / 2)
  (zdata, xdata, ydata, sliceL time StartIndex EndIndex)

/-- Python slice `l[0::F]`: every `F`-th element starting at index 0. -/
def subsample (F : ℕ) : List ℚ → List ℚ
  | [] => []
  | a :: t => a :: subsample F (t.drop (F - 1))
termination_by l => l.length
decreasing_by
  simp only [List.length_drop, List.length_cons]
  omega

/-- The post-filter numerical-instability message of `get_ZXY_data`
(lines 1166-1168, 1174-1176, 1182-1184). -/
def nanErrorMsg : String :=
  "Value Error: FractionOfSampleFreq must be higher, a sufficiently small sample frequency should be used to produce a working IIR filter."

/-- Source `get_ZXY_data` (lines 1142-1205), embedded faithfully.  After
resolving the time window (`timeStart`/`timeEnd` default to `time[0]` /
`time[-1]`; the caller passes resolved values), computing the
sub-sampled sample frequency and dispatching on `filterImplementation`
(raising `ValueError` for anything other than `"filtfilt"` or
`"lfilter"`), the source's first filtering step (line 1162) calls
`IIRFilterDesign`, a name defined nowhere in the module (the module's
designer is `IIR_filter_design`), so every call that reaches the
filtering step raises `NameError`; no filter is ever designed or
applied.  The unreachable remainder of the source is embedded separately
as `get_ZXY_data_asDocumented`. -/
def get_ZXY_data (time voltage : List ℚ) (SampleFreq zf xf yf : ℚ)
    (FractionOfSampleFreq : ℕ)
    (zwidth xwidth ywidth ztransition xtransition ytransition : ℚ)
    (filterImplementation : String) (timeStart timeEnd : ℚ) :
    Except String (List (Option ℚ) × List (Option ℚ) × List (Option ℚ) × List ℚ) :=
  let StartIndex := time.indexOf ((take_closest time timeStart).getD 0)
  let EndIndex := time.indexOf ((take_closest time timeEnd).getD 0)
  if filterImplementation = "filtfilt" ∨ filterImplementation = "lfilter" then
    let _input_signal := subsample FractionOfSampleFreq (sliceL voltage StartIndex EndIndex)
    Except.error "NameError: name IIRFilterDesign is not defined"
  else
    Except.error
      "filterImplementation must be one of [filtfilt, lfilter] you entered: {filterImplementation}"

/-- The behaviour `get_ZXY_data` documents (its docstring and lines
1160-1205) with the source's `IIRFilterDesign` read as the module's
`IIR_filter_design` (called with `GainStop = 100` and the default
`GainPass = 0.01`): time-window, sub-sample, design three bandpass
filters, apply each to the sub-sampled signal (external filter
application passed in as `ApplyFilter`, whose output may contain NaN,
modelled as `none`), fail hard with `nanErrorMsg` whenever a filtered
channel contains a NaN, and otherwise return the three channels plus the
matching sub-sampled time axis. -/
def get_ZXY_data_asDocumented (ApplyFilter : (ℚ × ℚ) × (ℚ × ℚ) → List ℚ → List (Option ℚ))
    (time voltage : List ℚ) (SampleFreq zf xf yf : ℚ) (FractionOfSampleFreq : ℕ)
    (zwidth xwidth ywidth ztransition xtransition ytransition : ℚ) (timeStart timeEnd : ℚ) :
    Except String (List (Option ℚ) × List (Option ℚ) × List (Option ℚ) × List ℚ) :=
  let StartIndex := time.indexOf ((take_closest time timeStart).getD 0)
  let EndIndex := time.indexOf ((take_closest time timeEnd).getD 0)
  let SAMPLEFREQ := SampleFreq / (FractionOfSampleFreq : ℚ)
  let input_signal := subsample FractionOfSampleFreq (sliceL voltage StartIndex EndIndex)
  match IIR_filter_design zf zwidth ztransition SAMPLEFREQ 100 (1 / 100) with
  | Except.error e => Except.error e
  | Except.ok bandsZ =>
    let zdata := ApplyFilter bandsZ input_signal
    if zdata.any (fun v => v.isNone) then Except.error nanErrorMsg
    else
      match IIR_filter_design xf xwidth xtransition SAMPLEFREQ 100 (1 / 100) with
      | Except.error e => Except.error e
      | Except.ok bandsX =>
        let xdata := ApplyFilter bandsX input_signal
        if xdata.any (fun v => v.isNone) then Except.error nanErrorMsg
        else
          match IIR_filter_design yf ywidth ytransition SAMPLEFREQ 100 (1 / 100) with
          | Except.error e => Except.error e
          | Except.ok bandsY =>
            let ydata := ApplyFilter bandsY input_signal
            if ydata.any (fun v => v.isNone) then Except.error nanErrorMsg
            else
              Except.ok (zdata, xdata, ydata,
                subsample FractionOfSampleFreq (sliceL time StartIndex EndIndex))

/-- A fit result as produced by `get_fit_from_peak`: trap frequency,
`A`, and damping `Gamma`, each a `(nominal value, standard error)` pair
(the source's `uncertainties.ufloat`). -/
structure FitR where
  Ftrap : ℚ × ℚ
  A : ℚ × ℚ
  Gamma : ℚ × ℚ

/-- The badness score of `get_fit_auto` (lines 446-447):
`(A.std_dev/A.n)² + (Gamma.std_dev/Gamma.n)² + (Ftrap.std_dev/Ftrap.n)²`. -/
def score (f : FitR) : ℚ :=
  (f.A.2 / f.A.1) ^ 2 + (f.Gamma.2 / f.Gamma.1) ^ 2 + (f.Ftrap.2 / f.Ftrap.1) ^ 2

/-- `numpy.arange(MaxWidth, MinWidth - WidthIntervals, -WidthIntervals)`
(line 435): `⌈(start - stop)/step⌉` elements `MaxWidth - i*WidthIntervals`. -/
def widthLadder (MaxWidth MinWidth WidthIntervals : ℚ) : List ℚ :=
  let n : ℕ := (Int.ceil ((MaxWidth - (MinWidth - WidthIntervals)) / WidthIntervals)).toNat
  (List.range n).map (fun i : ℕ => MaxWidth - (i : ℚ) * WidthIntervals)

/-- The candidate loop of `get_fit_auto` (lines 434-451).  `fitPeak`
stands for `get_fit_from_peak` on a `(lowerLimit, upperLimit)` window;
`none` covers both a raised `RuntimeError` (caught at lines 439-445 and
replaced by NaN values) and a NaN-valued fit, whose NaN badness score
fails the strict `<` comparison against the running minimum exactly as
skipping does.  The accumulator holds `(MinTotalSumSquaredError,
BestWidth)`; `none` is the initial `inf` state with `BestWidth` unbound. -/
def autoLoop (fitPeak : ℚ → ℚ → Option FitR) (CentralFreq : ℚ) :
    List ℚ → Option (ℚ × ℚ) → Option (ℚ × ℚ)
  | [], acc => acc
  | w :: ws, acc =>
    match fitPeak (CentralFreq - w / 2) (CentralFreq + w / 2) with
    | none => autoLoop fitPeak CentralFreq ws acc
    | some f =>
      match acc with
      | none => autoLoop fitPeak CentralFreq ws (some (score f, w))
      | some (best, bw) =>
        if score f < best then autoLoop fitPeak CentralFreq ws (some (score f, w))
        else autoLoop fitPeak CentralFreq ws (some (best, bw))

/-- Source `get_fit_auto` (lines 407-458): runs the candidate loop over
the descending width ladder and, if any width produced a comparable
score, re-runs the fit once at the best width and returns that final
fit; if every width failed, `BestWidth` is never bound and the operation
fails hard (Python `UnboundLocalError`), modelled as `none`. -/
def get_fit_auto (fitPeak : ℚ → ℚ → Option FitR)
    (CentralFreq MaxWidth MinWidth WidthIntervals : ℚ) : Option FitR :=
  match autoLoop fitPeak CentralFreq (widthLadder MaxWidth MinWidth WidthIntervals) none with
  | none => none
  | some (_, BestWidth) =>
    fitPeak (CentralFreq - BestWidth / 2) (CentralFreq + BestWidth / 2)

/-- The two exception kinds relevant to the fit call inside
`get_fit_from_peak`: `TypeError` (caught at line 393 and converted to
the NaN sentinel) and `RuntimeError` (optimizer non-convergence, not
caught here — it propagates to the caller). -/
inductive FitErr
  | typeError
  | runtimeError

/-- The outcome of `get_fit_from_peak`: the warned NaN-triple sentinel,
a fit result, or an uncaught hard failure. -/
inductive PeakOut
  | nanTriple
  | ok (f : FitR)
  | err

/-- `list(self.freqs).index(take_closest(self.freqs, limit))`
(lines 347-350): the index of the frequency nearest `limit`. -/
def gffp_index (freqs : List ℚ) (limit : ℚ) : ℕ :=
  freqs.indexOf ((take_closest freqs limit).getD 0)

/-- Source `get_fit_from_peak` (lines 316-405).  `getFit` stands for the
external-optimizer-backed `get_fit(CentralFreq, width, A_Initial,
Gamma_Initial)`; a `TypeError` from it is caught and converted to the
NaN sentinel, a `RuntimeError` propagates (`PeakOut.err`).  The window
indices come from `take_closest` on the frequency axis; an equal lower
and upper index warns and returns the NaN triple (lines 352-355); an
empty half-max search slice on either side of the peak makes
`take_closest` fail (`IndexError` in Python, `none` here) and likewise
warns and returns the NaN triple (lines 369-385).  Python's `max`/`min`
on an empty window raise `ValueError` (`PeakOut.err`).  Out-of-range
positional accesses are modelled with `getD`; they are in range whenever
`freqs` and `PSD` have equal length. -/
def get_fit_from_peak (getFit : ℚ → ℚ → ℚ → ℚ → Except FitErr FitR)
    (freqs PSD : List ℚ) (lowerLimit upperLimit : ℚ) : PeakOut :=
  if freqs = [] then PeakOut.err
  else
    let lowerIndex := gffp_index freqs lowerLimit
    let upperIndex := gffp_index freqs upperLimit
    if lowerIndex = upperIndex then PeakOut.nanTriple
    else
      match (sliceL PSD lowerIndex upperIndex).max?, (sliceL PSD lowerIndex upperIndex).min? with
      | some MaxPSD, some MinPSD =>
        let centralIndex := freqs.indexOf (freqs.getD (PSD.indexOf MaxPSD) 0)
        let HalfMax := MinPSD + (MaxPSD - MinPSD) / 2
        match take_closest (sliceL PSD lowerIndex centralIndex) HalfMax with
        | none => PeakOut.nanTriple
        | some lv =>
          match take_closest (sliceL PSD centralIndex upperIndex) HalfMax with
          | none => PeakOut.nanTriple
          | some rv =>
            let FWHM := freqs.getD (PSD.indexOf rv) 0 - freqs.getD (PSD.indexOf lv) 0
            match getFit (freqs.getD (PSD.indexOf MaxPSD) 0)
                ((upperLimit - lowerLimit) / 2) (MaxPSD * 1e16) (FWHM / 4) with
            | Except.error FitErr.typeError => PeakOut.nanTriple
            | Except.error FitErr.runtimeError => PeakOut.err
            | Except.ok f => PeakOut.ok f
      | _, _ => PeakOut.err

lemma bisect_left_le_length (l : List ℚ) (x : ℚ) : bisect_left l x ≤ l.length := by
  induction l with
  | nil => simp [bisect_left]
  | cons a t ih =>
    simp only [bisect_left, List.length_cons]
    split <;> omega

lemma bisect_left_eq_zero_iff (a : ℚ) (t : List ℚ) (x : ℚ) :
    bisect_left (a :: t) x = 0 ↔ ¬a < x := by
  by_cases h : a < x <;> simp [bisect_left, h]

lemma getD_lt_of_lt_bisect_left (l : List ℚ) (x d : ℚ) (i : ℕ)
    (h : i < bisect_left l x) : l.getD i d < x := by
  induction l generalizing i with
  | nil => simp [bisect_left] at h
  | cons a t ih =>
    simp only [bisect_left] at h
    by_cases ha : a < x
    · rw [if_pos ha] at h
      cases i with
      | zero => simpa using ha
      | succ j => simpa using ih j (by omega)
    · rw [if_neg ha] at h
      omega

lemma le_getD_of_bisect_left_le (l : List ℚ) (x d : ℚ) (hs : l.Sorted (· ≤ ·)) (i : ℕ)
    (hki : bisect_left l x ≤ i) (hi : i < l.length) : x ≤ l.getD i d := by
  induction l generalizing i with
  | nil => simp at hi
  | cons a t ih =>
    simp only [bisect_left] at hki
    by_cases ha : a < x
    · rw [if_pos ha] at hki
      cases i with
      | zero => omega
      | succ j =>
        rw [List.getD_cons_succ]
        exact ih hs.of_cons j (by omega) (by simpa using hi)
    · have hxa : x ≤ a := not_lt.mp ha
      cases i with
      | zero => simpa using hxa
      | succ j =>
        rw [List.getD_cons_succ]
        have hj : j < t.length := by simpa using hi
        have hmem : t.getD j d ∈ t := by
          rw [List.getD_eq_getElem _ _ hj]
          exact List.getElem_mem hj
        exact hxa.trans (List.rel_of_sorted_cons hs _ hmem)

lemma sorted_getD_mono (l : List ℚ) (d : ℚ) (hs : l.Sorted (· ≤ ·)) {i j : ℕ}
    (hij : i ≤ j) (hj : j < l.length) : l.getD i d ≤ l.getD j d := by
  have hi : i < l.length := lt_of_le_of_lt hij hj
  rw [List.getD_eq_getElem _ _ hi, List.getD_eq_getElem _ _ hj]
  rcases eq_or_lt_of_le hij with rfl | hlt
  · exact le_refl _
  · exact hs.rel_get_of_lt (by exact hlt)

lemma getD_mem_of_lt (l : List ℚ) (d : ℚ) (i : ℕ) (hi : i < l.length) :
    l.getD i d ∈ l := by
  rw [List.getD_eq_getElem _ _ hi]
  exact List.getElem_mem hi

lemma take_closest_pos_zero (a : ℚ) (t : List ℚ) (x : ℚ)
    (h : bisect_left (a :: t) x = 0) : take_closest (a :: t) x = some a := by
  simp [take_closest, h]

lemma take_closest_pos_len (a : ℚ) (t : List ℚ) (x : ℚ)
    (h0 : bisect_left (a :: t) x ≠ 0) (h : bisect_left (a :: t) x = (a :: t).length) :
    take_closest (a :: t) x = some ((a :: t).getLast (List.cons_ne_nil a t)) := by
  simp only [take_closest]
  rw [if_neg h0, if_pos h]

lemma take_closest_mid (a : ℚ) (t : List ℚ) (x : ℚ)
    (h0 : bisect_left (a :: t) x ≠ 0) (h : bisect_left (a :: t) x ≠ (a :: t).length) :
    take_closest (a :: t) x =
      if (a :: t).getD (bisect_left (a :: t) x) a - x <
          x - (a :: t).getD (bisect_left (a :: t) x - 1) a
      then some ((a :: t).getD (bisect_left (a :: t) x) a)
      else some ((a :: t).getD (bisect_left (a :: t) x - 1) a) := by
  simp only [take_closest]
  rw [if_neg h0, if_neg h]

/-- **C2.**  Source `take_closest` (lines 758-785): on every non-empty
ascending-sorted list, it returns an element of the list of minimum
absolute distance to the target; whenever another element is equally
close, the returned one is the smaller; a target at or below the first
element yields the first element, and a target at or above the last
element yields the last element. -/
theorem take_closest_spec (l : List ℚ) (x : ℚ) (hs : l.Sorted (· ≤ ·)) (hne : l ≠ []) :
    ∃ r, take_closest l x = some r ∧ r ∈ l ∧
      (∀ y ∈ l, |r - x| ≤ |y - x|) ∧
      (∀ y ∈ l, |y - x| = |r - x| → r ≤ y) ∧
      (x ≤ l.head hne → r = l.head hne) ∧
      (l.getLast hne ≤ x → r = l.getLast hne) := by
  cases l with
  | nil => exact absurd rfl hne
  | cons a t =>
    have hkle := bisect_left_le_length (a :: t) x
    have hlenpos : 0 < (a :: t).length := by simp
    by_cases h0 : bisect_left (a :: t) x = 0
    · -- clamp low: every element is at or above the target
      have hxa : x ≤ a := not_lt.mp ((bisect_left_eq_zero_iff a t x).mp h0)
      have hay : ∀ y ∈ a :: t, a ≤ y := by
        intro y hy
        rcases List.mem_cons.mp hy with rfl | hy'
        · exact le_refl _
        · exact List.rel_of_sorted_cons hs _ hy'
      refine ⟨a, take_closest_pos_zero a t x h0, List.mem_cons_self a t, ?_, ?_, ?_, ?_⟩
      · intro y hy
        have := hay y hy
        rw [abs_of_nonneg (by linarith), abs_of_nonneg (by linarith)]
        linarith
      · intro y hy _
        exact hay y hy
      · intro _
        simp
      · intro hlast
        have h1 : a ≤ (a :: t).getLast (List.cons_ne_nil a t) :=
          hay _ (List.getLast_mem (List.cons_ne_nil a t))
        have h2 : (a :: t).getLast (List.cons_ne_nil a t) ≤ a := le_trans hlast hxa
        exact le_antisymm h1 h2
    · by_cases hlen : bisect_left (a :: t) x = (a :: t).length
      · -- clamp high: every element is strictly below the target
        have hall : ∀ y ∈ a :: t, y < x := by
          intro y hy
          obtain ⟨i, hi, hEq⟩ := List.mem_iff_getElem.mp hy
          have h1 := getD_lt_of_lt_bisect_left (a :: t) x a i (by omega)
          rwa [List.getD_eq_getElem _ _ hi, hEq] at h1
        have hglast : (a :: t).getLast (List.cons_ne_nil a t) =
            (a :: t).getD ((a :: t).length - 1) a := by
          rw [List.getLast_eq_getElem, List.getD_eq_getElem]
        have hyle : ∀ y ∈ a :: t, y ≤ (a :: t).getLast (List.cons_ne_nil a t) := by
          intro y hy
          obtain ⟨i, hi, rfl⟩ := List.mem_iff_getElem.mp hy
          rw [hglast, ← List.getD_eq_getElem (a :: t) a hi]
          exact sorted_getD_mono _ _ hs (by omega) (by omega)
        have hglt : (a :: t).getLast (List.cons_ne_nil a t) < x :=
          hall _ (List.getLast_mem (List.cons_ne_nil a t))
        refine ⟨(a :: t).getLast (List.cons_ne_nil a t),
          take_closest_pos_len a t x h0 hlen,
          List.getLast_mem (List.cons_ne_nil a t), ?_, ?_, ?_, ?_⟩
        · intro y hy
          have h1 := hall y hy
          have h2 := hyle y hy
          rw [abs_of_nonpos (by linarith), abs_of_nonpos (by linarith)]
          linarith
        · intro y hy habs
          have h1 := hall y hy
          rw [abs_of_nonpos (by linarith), abs_of_nonpos (by linarith)] at habs
          linarith
        · intro hxhead
          have : a < x := by
            have := hall a (List.mem_cons_self a t)
            exact this
          simp only [List.head_cons] at hxhead
          linarith
        · intro _
          rfl
      · -- interior: the target falls between two adjacent elements
        have hk1 : 0 < bisect_left (a :: t) x := Nat.pos_of_ne_zero h0
        have hk2 : bisect_left (a :: t) x < (a :: t).length := lt_of_le_of_ne hkle hlen
        have hb : (a :: t).getD (bisect_left (a :: t) x - 1) a < x :=
          getD_lt_of_lt_bisect_left _ _ _ _ (by omega)
        have ha : x ≤ (a :: t).getD (bisect_left (a :: t) x) a :=
          le_getD_of_bisect_left_le _ _ _ hs _ (le_refl _) hk2
        have hheadle : a ≤ (a :: t).getD (bisect_left (a :: t) x - 1) a := by
          have h1 := sorted_getD_mono (a :: t) a hs
            (i := 0) (j := bisect_left (a :: t) x - 1) (by omega) (by omega)
          simpa using h1
        have hglast : (a :: t).getLast (List.cons_ne_nil a t) =
            (a :: t).getD ((a :: t).length - 1) a := by
          rw [List.getLast_eq_getElem, List.getD_eq_getElem]
        have hmemsplit : ∀ y ∈ a :: t, ∃ i, i < (a :: t).length ∧ y = (a :: t).getD i a := by
          intro y hy
          obtain ⟨i, hi, rfl⟩ := List.mem_iff_getElem.mp hy
          exact ⟨i, hi, (List.getD_eq_getElem (a :: t) a hi).symm⟩
        by_cases hc : (a :: t).getD (bisect_left (a :: t) x) a - x <
            x - (a :: t).getD (bisect_left (a :: t) x - 1) a
        · -- the element above the target is strictly closer
          refine ⟨(a :: t).getD (bisect_left (a :: t) x) a, ?_,
            getD_mem_of_lt _ _ _ hk2, ?_, ?_, ?_, ?_⟩
          · rw [take_closest_mid a t x h0 hlen, if_pos hc]
          · intro y hy
            obtain ⟨i, hi, rfl⟩ := hmemsplit y hy
            rcases lt_or_ge i (bisect_left (a :: t) x) with hik | hik
            · have hyb : (a :: t).getD i a ≤ (a :: t).getD (bisect_left (a :: t) x - 1) a :=
                sorted_getD_mono _ _ hs (by omega) (by omega)
              rw [abs_of_nonneg (by linarith), abs_of_nonpos (by linarith)]
              linarith
            · have hya : (a :: t).getD (bisect_left (a :: t) x) a ≤ (a :: t).getD i a :=
                sorted_getD_mono _ _ hs hik hi
              rw [abs_of_nonneg (by linarith), abs_of_nonneg (by linarith)]
              linarith
          · intro y hy habs
            obtain ⟨i, hi, rfl⟩ := hmemsplit y hy
            rcases lt_or_ge i (bisect_left (a :: t) x) with hik | hik
            · have hyb : (a :: t).getD i a ≤ (a :: t).getD (bisect_left (a :: t) x - 1) a :=
                sorted_getD_mono _ _ hs (by omega) (by omega)
              rw [abs_of_nonpos (by linarith), abs_of_nonneg (by linarith)] at habs
              linarith
            · exact sorted_getD_mono _ _ hs hik hi
          · intro hxhead
            simp only [List.head_cons] at hxhead ⊢
            linarith [hheadle, hb]
          · intro hlast
            have h1 : (a :: t).getD (bisect_left (a :: t) x) a ≤
                (a :: t).getLast (List.cons_ne_nil a t) := by
              rw [hglast]
              exact sorted_getD_mono _ _ hs (by omega) (by omega)
            exact le_antisymm h1 (by linarith)
        · -- tie or the element below the target is closer
          have hcc : x - (a :: t).getD (bisect_left (a :: t) x - 1) a ≤
              (a :: t).getD (bisect_left (a :: t) x) a - x := not_lt.mp hc
          refine ⟨(a :: t).getD (bisect_left (a :: t) x - 1) a, ?_,
            getD_mem_of_lt _ _ _ (by omega), ?_, ?_, ?_, ?_⟩
          · rw [take_closest_mid a t x h0 hlen, if_neg hc]
          · intro y hy
            obtain ⟨i, hi, rfl⟩ := hmemsplit y hy
            rcases lt_or_ge i (bisect_left (a :: t) x) with hik | hik
            · have hyb : (a :: t).getD i a ≤ (a :: t).getD (bisect_left (a :: t) x - 1) a :=
                sorted_getD_mono _ _ hs (by omega) (by omega)
              rw [abs_of_nonpos (by linarith), abs_of_nonpos (by linarith)]
              linarith
            · have hya : (a :: t).getD (bisect_left (a :: t) x) a ≤ (a :: t).getD i a :=
                sorted_getD_mono _ _ hs hik hi
              rw [abs_of_nonpos (by linarith), abs_of_nonneg (by linarith)]
              linarith
          · intro y hy habs
            obtain ⟨i, hi, rfl⟩ := hmemsplit y hy
            rcases lt_or_ge i (bisect_left (a :: t) x) with hik | hik
            · have hyb : (a :: t).getD i a ≤ (a :: t).getD (bisect_left (a :: t) x - 1) a :=
                sorted_getD_mono _ _ hs (by omega) (by omega)
              rw [abs_of_nonpos (by linarith), abs_of_nonpos (by linarith)] at habs
              linarith
            · have hya : (a :: t).getD (bisect_left (a :: t) x) a ≤ (a :: t).getD i a :=
                sorted_getD_mono _ _ hs hik hi
              linarith
          · intro hxhead
            simp only [List.head_cons] at hxhead ⊢
            linarith [hheadle, hb]
          · intro hlast
            have h1 : (a :: t).getD (bisect_left (a :: t) x) a ≤
                (a :: t).getLast (List.cons_ne_nil a t) := by
              rw [hglast]
              exact sorted_getD_mono _ _ hs (by omega) (by omega)
            linarith

/-- Witness for `take_closest_spec` on the sorted list `[1, 3, 6]` with
target `2` (a tie between `1` and `3`, resolved toward `1`). -/
theorem take_closest_spec_witness :
    ∃ r, take_closest [1, 3, 6] 2 = some r ∧ r ∈ [(1 : ℚ), 3, 6] ∧
      (∀ y ∈ [(1 : ℚ), 3, 6], |r - 2| ≤ |y - 2|) ∧
      (∀ y ∈ [(1 : ℚ), 3, 6], |y - 2| = |r - 2| → r ≤ y) ∧
      (2 ≤ List.head [(1 : ℚ), 3, 6] (by simp) → r = List.head [(1 : ℚ), 3, 6] (by simp)) ∧
      (List.getLast [(1 : ℚ), 3, 6] (by simp) ≤ 2 → r = List.getLast [(1 : ℚ), 3, 6] (by simp)) :=
  take_closest_spec [1, 3, 6] 2 (by norm_num) (by simp)

lemma countLoop_eq_runStartsFrom (l : List Bool) (prev : Bool) (i : ℕ) :
    countLoop l prev i = ((runStartsFrom l prev i).length, runStartsFrom l prev i) := by
  induction l generalizing prev i with
  | nil => rfl
  | cons v rest ih =>
    simp only [countLoop, runStartsFrom, ih]
    by_cases h : v = true ∧ prev = false
    · simp [h]
    · simp [h]

/-- **C9 (counterexample).**  On the flag sequence `[true, false, true]`
(two out-of-tolerance runs, starting at offsets 0 and 2, separated by an
in-tolerance run) `count_collisions` reports only one collision, at
index 2: the source initialises `lastval` to `True`, so the leading
`true` run produces no `false → true` transition and is not counted.
This refutes the claim that the count always equals the number of
out-of-tolerance runs with each run's first offset reported. -/
theorem count_collisions_leading_run_missed :
    count_collisions [true, false, true] ≠
      ((trueRunStarts [true, false, true]).length, trueRunStarts [true, false, true]) := by
  decide

/-- **C9 (amended).**  For every flag sequence that does not begin with
an out-of-tolerance (`true`) sample, `count_collisions` returns exactly
the number of `true` runs together with the list of each run's first
sample offset; consecutive `true` values belong to one single event.  (A
leading `true` run is the one exception, forced by the source's
`lastval = True` initialisation: it is skipped, as the counterexample
records.) -/
theorem count_collisions_spec (l : List Bool) (h : l.head? ≠ some true) :
    count_collisions l = ((trueRunStarts l).length, trueRunStarts l) := by
  unfold count_collisions trueRunStarts
  cases l with
  | nil => rfl
  | cons v rest =>
    simp only [List.head?] at h
    have hv : v = false := by
      cases v
      · rfl
      · exact absurd rfl h
    subst hv
    simp only [countLoop, runStartsFrom]
    simp only [countLoop_eq_runStartsFrom]
    simp

/-- **C3.**  The fit-target model evaluates to
`10*log10(A / ((OmegaTrap² - omega²)² + (omega*Gamma)²))` when all of
`A`, `OmegaTrap`, `Gamma` are non-negative, and to the constant penalty
`1e9` — independent of `omega` and of the true model value — whenever
any of them is negative. -/
theorem calc_theory_PSD_curve_fit_spec (omega A OmegaTrap Gamma : ℝ) :
    (0 ≤ A → 0 ≤ OmegaTrap → 0 ≤ Gamma →
      calc_theory_PSD_curve_fit omega A OmegaTrap Gamma =
        10 * Real.logb 10 (A / ((OmegaTrap ^ 2 - omega ^ 2) ^ 2 + (omega * Gamma) ^ 2))) ∧
    (A < 0 ∨ OmegaTrap < 0 ∨ Gamma < 0 →
      calc_theory_PSD_curve_fit omega A OmegaTrap Gamma = 1e9) := by
  constructor
  · intro hA hT hG
    have hcond : ¬(A < 0 ∨ OmegaTrap < 0 ∨ Gamma < 0) := by
      push_neg
      exact ⟨hA, hT, hG⟩
    rw [calc_theory_PSD_curve_fit, if_neg hcond, PSD_fitting_eqn]
  · intro hneg
    rw [calc_theory_PSD_curve_fit, if_pos hneg]

/-- Witness for `calc_theory_PSD_curve_fit_spec` at `omega = 3`,
`(A, OmegaTrap, Gamma) = (2, 1, 1)` for the model branch and
`(A, OmegaTrap, Gamma) = (-2, 1, 1)` for the penalty branch. -/
theorem calc_theory_PSD_curve_fit_spec_witness :
    calc_theory_PSD_curve_fit 3 2 1 1 =
        10 * Real.logb 10 (2 / ((1 ^ 2 - 3 ^ 2) ^ 2 + (3 * 1) ^ 2)) ∧
      calc_theory_PSD_curve_fit 3 (-2) 1 1 = 1e9 :=
  ⟨(calc_theory_PSD_curve_fit_spec 3 2 1 1).1 (by norm_num) (by norm_num) (by norm_num),
    (calc_theory_PSD_curve_fit_spec 3 (-2) 1 1).2 (by norm_num)⟩

/-- **C1.**  For every pressure (with relative error) and every fitted
`A > 0`, `Gamma0 > 0` (with errors), `extract_parameters` converts the
pressure to pascal by `× 100` and returns exactly
`radius = (0.169*9*π*eta*dm²)/(√2*rho*kB*T0) * (100*P_mbar)/Gamma0`,
`mass = rho*(4/3)*π*radius³` and
`conversionFactor = √(A*π*mass/(kB*T0*Gamma0))`, with the fixed
constants `rho = 2200`, `dm = 0.372e-9`, `T0 = 300`, `kB = 1.38e-23`,
`eta = 18.27e-6`; the function takes no trap-frequency argument, so the
result depends only on `A` and `Gamma0` of the fit. -/
theorem extract_parameters_spec (P_mbar P_Err A AErr Gamma0 Gamma0Err : ℝ)
    (hA : 0 < A) (hG : 0 < Gamma0) :
    (extract_parameters P_mbar P_Err A AErr Gamma0 Gamma0Err).1.1 =
        (0.169 * 9 * Real.pi * 18.27e-6 * (0.372e-9) ^ 2) /
          (Real.sqrt 2 * 2200 * 1.38e-23 * 300) * (100 * P_mbar) / Gamma0 ∧
      (extract_parameters P_mbar P_Err A AErr Gamma0 Gamma0Err).1.2.1 =
        2200 * (4 / 3) * Real.pi *
          ((extract_parameters P_mbar P_Err A AErr Gamma0 Gamma0Err).1.1) ^ 3 ∧
      (extract_parameters P_mbar P_Err A AErr Gamma0 Gamma0Err).1.2.2 =
        Real.sqrt (A * Real.pi *
          (extract_parameters P_mbar P_Err A AErr Gamma0 Gamma0Err).1.2.1 /
          (1.38e-23 * 300 * Gamma0)) := by
  refine ⟨rfl, ?_, rfl⟩
  have hr : (extract_parameters P_mbar P_Err A AErr Gamma0 Gamma0Err).1.1 =
      (0.169 * 9 * Real.pi * 18.27e-6 * (0.372e-9) ^ 2) /
        (Real.sqrt 2 * 2200 * 1.38e-23 * 300) * (100 * P_mbar) / Gamma0 := rfl
  rw [hr]
  show (2200 : ℝ) * ((4 * Real.pi *
      ((0.169 * 9 * Real.pi * 18.27e-6 * (0.372e-9) ^ 2) /
        (Real.sqrt 2 * 2200 * 1.38e-23 * 300) * (100 * P_mbar) / Gamma0) ^ 3) / 3) =
    2200 * (4 / 3) * Real.pi *
      ((0.169 * 9 * Real.pi * 18.27e-6 * (0.372e-9) ^ 2) /
        (Real.sqrt 2 * 2200 * 1.38e-23 * 300) * (100 * P_mbar) / Gamma0) ^ 3
  ring

/-- Witness for `extract_parameters_spec` at
`(P_mbar, P_Err, A, AErr, Gamma0, Gamma0Err) = (1, 0, 1, 0, 1, 0)`. -/
theorem extract_parameters_spec_witness :
    (extract_parameters 1 0 1 0 1 0).1.1 =
        (0.169 * 9 * Real.pi * 18.27e-6 * (0.372e-9) ^ 2) /
          (Real.sqrt 2 * 2200 * 1.38e-23 * 300) * (100 * 1) / 1 ∧
      (extract_parameters 1 0 1 0 1 0).1.2.1 =
        2200 * (4 / 3) * Real.pi * ((extract_parameters 1 0 1 0 1 0).1.1) ^ 3 ∧
      (extract_parameters 1 0 1 0 1 0).1.2.2 =
        Real.sqrt (1 * Real.pi * (extract_parameters 1 0 1 0 1 0).1.2.1 /
          (1.38e-23 * 300 * 1)) :=
  extract_parameters_spec 1 0 1 0 1 0 (by norm_num) (by norm_num)

lemma sqrt_div_sixteen (x : ℝ) : Real.sqrt (x / 16) = Real.sqrt x / 4 := by
  rw [Real.sqrt_div' x (by norm_num : (0 : ℝ) ≤ 16)]
  have h16 : Real.sqrt 16 = 4 := by
    rw [show (16 : ℝ) = 4 ^ 2 by norm_num, Real.sqrt_sq (by norm_num : (0 : ℝ) ≤ 4)]
  rw [h16]

/-- **C10 (amended).**  With `A` and the pressure held fixed, doubling
`Gamma0` exactly halves the radius returned by `extract_parameters`
(radius ∝ pressure/Gamma0).  The returned conversionFactor, however,
follows an inverse-**square** law, not an inverse-square-root law: since
the returned mass tracks the radius through `mass ∝ radius³`, doubling
`Gamma0` scales the sqrt argument by `1/16` and the conversionFactor by
exactly `1/4` (conversionFactor ∝ Gamma0⁻²).  A `Gamma0^(-1/2)` law
would hold only if the mass were held numerically fixed. -/
theorem extract_parameters_gamma_scaling (P_mbar P_Err A AErr Gamma0 Gamma0Err : ℝ)
    (hG : Gamma0 ≠ 0) :
    (extract_parameters P_mbar P_Err A AErr (2 * Gamma0) Gamma0Err).1.1 =
        (extract_parameters P_mbar P_Err A AErr Gamma0 Gamma0Err).1.1 / 2 ∧
      (extract_parameters P_mbar P_Err A AErr (2 * Gamma0) Gamma0Err).1.2.2 =
        (extract_parameters P_mbar P_Err A AErr Gamma0 Gamma0Err).1.2.2 / 4 := by
  constructor
  · show (0.169 * 9 * Real.pi * 18.27e-6 * (0.372e-9) ^ 2) /
        (Real.sqrt 2 * 2200 * 1.38e-23 * 300) * (100 * P_mbar) / (2 * Gamma0) =
      (0.169 * 9 * Real.pi * 18.27e-6 * (0.372e-9) ^ 2) /
        (Real.sqrt 2 * 2200 * 1.38e-23 * 300) * (100 * P_mbar) / Gamma0 / 2
    rw [div_div]
    ring_nf
  · have harg : A * Real.pi * (2200 * ((4 * Real.pi *
        ((0.169 * 9 * Real.pi * 18.27e-6 * (0.372e-9) ^ 2) /
          (Real.sqrt 2 * 2200 * 1.38e-23 * 300) * (100 * P_mbar) / (2 * Gamma0)) ^ 3) / 3)) /
        (1.38e-23 * 300 * (2 * Gamma0)) =
        A * Real.pi * (2200 * ((4 * Real.pi *
        ((0.169 * 9 * Real.pi * 18.27e-6 * (0.372e-9) ^ 2) /
          (Real.sqrt 2 * 2200 * 1.38e-23 * 300) * (100 * P_mbar) / Gamma0) ^ 3) / 3)) /
        (1.38e-23 * 300 * Gamma0) / 16 := by
      have hs2 : Real.sqrt 2 ≠ 0 := ne_of_gt (Real.sqrt_pos.mpr (by norm_num))
      field_simp [hs2]
      ring_nf
      exact Or.inl trivial
    show Real.sqrt (A * Real.pi * (2200 * ((4 * Real.pi * (_ ^ 3)) / 3)) /
        (1.38e-23 * 300 * (2 * Gamma0))) = _
    rw [harg, sqrt_div_sixteen]
    rfl

/-- Witness for `extract_parameters_gamma_scaling` at
`(P_mbar, P_Err, A, AErr, Gamma0, Gamma0Err) = (1, 0, 1, 0, 1, 0)`. -/
theorem extract_parameters_gamma_scaling_witness :
    (extract_parameters 1 0 1 0 (2 * 1) 0).1.1 =
        (extract_parameters 1 0 1 0 1 0).1.1 / 2 ∧
      (extract_parameters 1 0 1 0 (2 * 1) 0).1.2.2 =
        (extract_parameters 1 0 1 0 1 0).1.2.2 / 4 :=
  extract_parameters_gamma_scaling 1 0 1 0 1 0 one_ne_zero

/-- **C10 (counterexample).**  At the concrete input
`(P_mbar, P_Err, A, AErr, Gamma0Err) = (1, 0, 1, 0, 0)`, doubling
`Gamma0` from 1 to 2 does **not** divide the returned conversionFactor
by `√2`: it divides it by 4, refuting the claimed
`conversionFactor ∝ Gamma0^(-1/2)` law for the values actually returned
by `extract_parameters`. -/
theorem extract_parameters_conv_not_inv_sqrt :
    (extract_parameters 1 0 1 0 2 0).1.2.2 ≠
      (extract_parameters 1 0 1 0 1 0).1.2.2 / Real.sqrt 2 := by
  have hscale := (extract_parameters_gamma_scaling 1 0 1 0 1 0 one_ne_zero).2
  norm_num at hscale
  have hargpos : (0 : ℝ) < 1 * Real.pi * (2200 * ((4 * Real.pi *
      ((0.169 * 9 * Real.pi * 18.27e-6 * (0.372e-9) ^ 2) /
        (Real.sqrt 2 * 2200 * 1.38e-23 * 300) * (100 * 1) / 1) ^ 3) / 3)) /
      (1.38e-23 * 300 * 1) := by positivity
  have hpos : (0 : ℝ) < (extract_parameters 1 0 1 0 1 0).1.2.2 := by
    show (0 : ℝ) < Real.sqrt _
    exact Real.sqrt_pos.mpr hargpos
  have hs2 : (0 : ℝ) < Real.sqrt 2 := Real.sqrt_pos.mpr (by norm_num)
  have hs2ne : Real.sqrt 2 ≠ 4 := by
    intro h
    have h2 := Real.sq_sqrt (show (0 : ℝ) ≤ 2 by norm_num)
    rw [h] at h2
    norm_num at h2
  rw [hscale]
  intro heq
  rw [div_eq_div_iff (by norm_num) (ne_of_gt hs2)] at heq
  have := mul_left_cancel₀ (ne_of_gt hpos) heq
  exact hs2ne this

/-- Witness for `count_collisions_spec` at the concrete flag sequence
`[false, true, true, false, true]`: two runs, starting at offsets 1 and 4. -/
theorem count_collisions_spec_witness :
    count_collisions [false, true, true, false, true] =
      ((trueRunStarts [false, true, true, false, true]).length,
        trueRunStarts [false, true, true, false, true]) :=
  count_collisions_spec [false, true, true, false, true] (by decide)

/-- **C4 (counterexample).**  With Nyquist = 1,000,000 Hz (sample
frequency 2,000,000 Hz), centre = 999,000 Hz and passband = 2,000 Hz, a
transition width of 500 Hz does **not** succeed: the centre plus half
the passband already equals the Nyquist frequency, so
999,000 + 1,000 + 500 = 1,000,500 > 1,000,000 and the design fails with
the out-of-range error, refuting the claim's "transition width of
500 Hz must succeed". -/
theorem IIR_filter_design_500_fails :
    (IIR_filter_design 999000 2000 500 2000000 40 (1 / 100)).isOk = false := by
  have h : (999000 : ℚ) + 2000 / 2 + 500 > 2000000 / 2 := by norm_num
  simp [IIR_filter_design, h, Except.isOk, Except.toBool]

/-- **C4 (amended).**  `IIR_filter_design` fails with the out-of-range
error if and only if `CentralFreq + bandwidth/2 + transitionWidth >
SampleFreq/2`, and otherwise returns the designed band edges.  At
Nyquist = 1,000,000 Hz, centre = 999,000 Hz and passband = 2,000 Hz a
transition width of 2,000 Hz fails as claimed, but a transition width of
500 Hz also fails (centre + passband/2 already equals Nyquist, so every
positive transition width fails); e.g. centre = 998,500 Hz with
transition width 500 Hz succeeds. -/
theorem IIR_filter_design_spec :
    (∀ c b t s g1 g2 : ℚ,
        (IIR_filter_design c b t s g1 g2).isOk = true ↔ ¬(c + b / 2 + t > s / 2)) ∧
      (IIR_filter_design 999000 2000 2000 2000000 40 (1 / 100)).isOk = false ∧
      (IIR_filter_design 999000 2000 500 2000000 40 (1 / 100)).isOk = false ∧
      (IIR_filter_design 998500 2000 500 2000000 40 (1 / 100)).isOk = true := by
  have hiff : ∀ c b t s g1 g2 : ℚ,
      (IIR_filter_design c b t s g1 g2).isOk = true ↔ ¬(c + b / 2 + t > s / 2) := by
    intro c b t s g1 g2
    by_cases h : c + b / 2 + t > s / 2
    · simp [IIR_filter_design, h, Except.isOk, Except.toBool]
    · simp [IIR_filter_design, h, Except.isOk, Except.toBool]
  refine ⟨hiff, ?_, ?_, ?_⟩
  · have h : ¬((IIR_filter_design 999000 2000 2000 2000000 40 (1 / 100)).isOk = true) := by
      rw [hiff]
      norm_num
    simpa using h
  · have h : ¬((IIR_filter_design 999000 2000 500 2000000 40 (1 / 100)).isOk = true) := by
      rw [hiff]
      norm_num
    simpa using h
  · rw [hiff]
    norm_num

/-- Witness for `IIR_filter_design_spec`: applies the if-and-only-if at
the concrete failing input (999,000, 2,000, 2,000, 2,000,000). -/
theorem IIR_filter_design_spec_witness :
    (IIR_filter_design 999000 2000 2000 2000000 40 (1 / 100)).isOk = true ↔
      ¬((999000 : ℚ) + 2000 / 2 + 2000 > 2000000 / 2) :=
  IIR_filter_design_spec.1 999000 2000 2000 2000000 40 (1 / 100)

/-- **C7 / C8 evidence (C8).**  On a concrete four-sample record with
`zwidth = 1` and `xwidth = 4`, the x channel produced by
`get_ZXY_data_IFFT` equals the IFFT filtering of the x band built with
**zwidth** (`xf ± zwidth/2`, keeping a single bin) and differs from the
IFFT filtering with the x channel's own width (`xf ± xwidth/2`, which
would keep every bin): the source reuses `zwidth` for the x and y axes
instead of `xwidth`/`ywidth`. -/
theorem get_ZXY_data_IFFT_uses_zwidth_for_x :
    (get_ZXY_data_IFFT (fun l => l.map (fun v => (v, 0))) id
        [0, 1, 2, 3] [1, 1, 1, 1] 3 0 1 0 1 4 4 0 3).2.1 =
      IFFT_filter (fun l => l.map (fun v => (v, 0))) id [1, 1, 1] 3
        (1 - 1 / 2) (1 + 1 / 2) ∧
    (get_ZXY_data_IFFT (fun l => l.map (fun v => (v, 0))) id
        [0, 1, 2, 3] [1, 1, 1, 1] 3 0 1 0 1 4 4 0 3).2.1 ≠
      IFFT_filter (fun l => l.map (fun v => (v, 0))) id [1, 1, 1] 3
        (1 - 4 / 2) (1 + 4 / 2) := by
  constructor
  · norm_num [get_ZXY_data_IFFT, IFFT_filter, fftfreq, sliceL, take_closest, bisect_left,
      List.indexOf, List.findIdx, List.findIdx.go, cond_eq_if, beq_iff_eq, List.range_succ]
  · norm_num [get_ZXY_data_IFFT, IFFT_filter, fftfreq, sliceL, take_closest, bisect_left,
      List.indexOf, List.findIdx, List.findIdx.go, cond_eq_if, beq_iff_eq, List.range_succ]

lemma subsample_length_eq_aux (F n : ℕ) : ∀ l₁ l₂ : List ℚ, l₁.length = l₂.length →
    l₁.length ≤ n → (subsample F l₁).length = (subsample F l₂).length := by
  induction n with
  | zero =>
    intro l₁ l₂ h hn
    cases l₁ with
    | nil =>
      cases l₂ with
      | nil => rfl
      | cons b t₂ => simp at h
    | cons a t₁ => simp at hn
  | succ n ih =>
    intro l₁ l₂ h hn
    cases l₁ with
    | nil =>
      cases l₂ with
      | nil => rfl
      | cons b t₂ => simp at h
    | cons a t₁ =>
      cases l₂ with
      | nil => simp at h
      | cons b t₂ =>
        simp only [subsample, List.length_cons]
        have h' : (t₁.drop (F - 1)).length = (t₂.drop (F - 1)).length := by
          simp only [List.length_drop]
          simp only [List.length_cons] at h
          omega
        have hn' : (t₁.drop (F - 1)).length ≤ n := by
          simp only [List.length_drop]
          simp only [List.length_cons] at hn
          omega
        rw [ih _ _ h' hn']

lemma subsample_length_eq (F : ℕ) (l₁ l₂ : List ℚ) (h : l₁.length = l₂.length) :
    (subsample F l₁).length = (subsample F l₂).length :=
  subsample_length_eq_aux F l₁.length l₁ l₂ h (le_refl _)

/-- **C7 (code evaluated at the failing input).**  Every call of
`get_ZXY_data` with the default `filterImplementation = "filtfilt"` —
for any data, frequencies and filter parameters whatsoever — fails with
the `NameError` for the undefined `IIRFilterDesign`, never returning the
four channel/time arrays and never reaching the post-filter NaN check. -/
theorem get_ZXY_data_raises_NameError (time voltage : List ℚ) (SampleFreq zf xf yf : ℚ)
    (FractionOfSampleFreq : ℕ)
    (zwidth xwidth ywidth ztransition xtransition ytransition : ℚ) (timeStart timeEnd : ℚ) :
    get_ZXY_data time voltage SampleFreq zf xf yf FractionOfSampleFreq
        zwidth xwidth ywidth ztransition xtransition ytransition "filtfilt" timeStart timeEnd =
      Except.error "NameError: name IIRFilterDesign is not defined" := by
  simp [get_ZXY_data]

/-- The documented behaviour satisfies the spec's contract: whenever a
result is returned at all, the three channels and the time axis have
equal length, and no returned channel contains a NaN (a NaN in any
filtered channel makes the operation fail hard with `nanErrorMsg`
instead). -/
theorem get_ZXY_data_asDocumented_spec
    (ApplyFilter : (ℚ × ℚ) × (ℚ × ℚ) → List ℚ → List (Option ℚ))
    (hApply : ∀ b s, (ApplyFilter b s).length = s.length)
    (time voltage : List ℚ) (SampleFreq zf xf yf : ℚ) (FractionOfSampleFreq : ℕ)
    (zwidth xwidth ywidth ztransition xtransition ytransition : ℚ) (timeStart timeEnd : ℚ)
    (hlen : time.length = voltage.length) :
    ∀ z x y td, get_ZXY_data_asDocumented ApplyFilter time voltage SampleFreq zf xf yf
        FractionOfSampleFreq zwidth xwidth ywidth ztransition xtransition ytransition
        timeStart timeEnd = Except.ok (z, x, y, td) →
      (z.length = td.length ∧ x.length = td.length ∧ y.length = td.length) ∧
        (z.all (fun v => v.isSome) ∧ x.all (fun v => v.isSome) ∧
          y.all (fun v => v.isSome)) := by
  intro z x y td h
  have hslice : (sliceL voltage
      (time.indexOf ((take_closest time timeStart).getD 0))
      (time.indexOf ((take_closest time timeEnd).getD 0))).length =
      (sliceL time
      (time.indexOf ((take_closest time timeStart).getD 0))
      (time.indexOf ((take_closest time timeEnd).getD 0))).length := by
    simp [sliceL, hlen]
  have hsub := subsample_length_eq FractionOfSampleFreq _ _ hslice
  have hclean : ∀ w : List (Option ℚ), ¬(w.any (fun v => v.isNone) = true) →
      w.all (fun v => v.isSome) = true := by
    intro w hw
    rw [List.all_eq_true]
    intro v hv
    by_contra hvs
    apply hw
    rw [List.any_eq_true]
    refine ⟨v, hv, ?_⟩
    cases v with
    | none => rfl
    | some q => exact absurd rfl hvs
  simp only [get_ZXY_data_asDocumented] at h
  split at h
  · exact absurd h (by simp)
  split at h
  · exact absurd h (by simp)
  split at h
  · exact absurd h (by simp)
  split at h
  · exact absurd h (by simp)
  split at h
  · exact absurd h (by simp)
  split at h
  · exact absurd h (by simp)
  simp only [Except.ok.injEq, Prod.mk.injEq] at h
  obtain ⟨rfl, rfl, rfl, rfl⟩ := h
  refine ⟨⟨by rw [hApply, hsub], by rw [hApply, hsub], by rw [hApply, hsub]⟩, ?_, ?_, ?_⟩ <;>
    (apply hclean; assumption)

lemma autoLoop_eq_none_iff (fitPeak : ℚ → ℚ → Option FitR) (C : ℚ) (ws : List ℚ)
    (acc : Option (ℚ × ℚ)) :
    autoLoop fitPeak C ws acc = none ↔
      acc = none ∧ ∀ w ∈ ws, fitPeak (C - w / 2) (C + w / 2) = none := by
  induction ws generalizing acc with
  | nil => simp [autoLoop]
  | cons w ws ih =>
    simp only [autoLoop]
    rcases h : fitPeak (C - w / 2) (C + w / 2) with _ | f
    · simp [ih, h, List.forall_mem_cons]
    · cases acc with
      | none => simp [ih, h, List.forall_mem_cons]
      | some p =>
        obtain ⟨best, bw⟩ := p
        by_cases hlt : score f < best <;> simp [hlt, ih, h, List.forall_mem_cons]

lemma autoLoop_mem (fitPeak : ℚ → ℚ → Option FitR) (C : ℚ) : ∀ (ws : List ℚ)
    (acc : Option (ℚ × ℚ)) (s w : ℚ), autoLoop fitPeak C ws acc = some (s, w) →
    acc = some (s, w) ∨
      (w ∈ ws ∧ ∃ f, fitPeak (C - w / 2) (C + w / 2) = some f ∧ score f = s) := by
  intro ws
  induction ws with
  | nil =>
    intro acc s w h
    exact Or.inl h
  | cons w₀ ws ih =>
    intro acc s w h
    simp only [autoLoop] at h
    rcases hf : fitPeak (C - w₀ / 2) (C + w₀ / 2) with _ | f <;> rw [hf] at h
    · rcases ih acc s w h with h1 | ⟨hmem, hex⟩
      · exact Or.inl h1
      · exact Or.inr ⟨List.mem_cons_of_mem _ hmem, hex⟩
    · cases acc with
      | none =>
        rcases ih _ s w h with h1 | ⟨hmem, hex⟩
        · simp only [Option.some.injEq, Prod.mk.injEq] at h1
          obtain ⟨rfl, rfl⟩ := h1
          exact Or.inr ⟨List.mem_cons_self _ _, f, hf, rfl⟩
        · exact Or.inr ⟨List.mem_cons_of_mem _ hmem, hex⟩
      | some p =>
        obtain ⟨best, bw⟩ := p
        have h' : (if score f < best then autoLoop fitPeak C ws (some (score f, w₀))
            else autoLoop fitPeak C ws (some (best, bw))) = some (s, w) := h
        by_cases hlt : score f < best
        · rw [if_pos hlt] at h'
          rcases ih _ s w h' with h1 | ⟨hmem, hex⟩
          · simp only [Option.some.injEq, Prod.mk.injEq] at h1
            obtain ⟨rfl, rfl⟩ := h1
            exact Or.inr ⟨List.mem_cons_self _ _, f, hf, rfl⟩
          · exact Or.inr ⟨List.mem_cons_of_mem _ hmem, hex⟩
        · rw [if_neg hlt] at h'
          rcases ih _ s w h' with h1 | ⟨hmem, hex⟩
          · exact Or.inl h1
          · exact Or.inr ⟨List.mem_cons_of_mem _ hmem, hex⟩

lemma autoLoop_min (fitPeak : ℚ → ℚ → Option FitR) (C : ℚ) : ∀ (ws : List ℚ)
    (acc : Option (ℚ × ℚ)) (s w : ℚ), autoLoop fitPeak C ws acc = some (s, w) →
    (∀ w' ∈ ws, ∀ g, fitPeak (C - w' / 2) (C + w' / 2) = some g → s ≤ score g) ∧
      (∀ s' w'', acc = some (s', w'') → s ≤ s') := by
  intro ws
  induction ws with
  | nil =>
    intro acc s w h
    refine ⟨by simp, ?_⟩
    intro s' w'' hacc
    simp only [autoLoop] at h
    rw [hacc] at h
    simp only [Option.some.injEq, Prod.mk.injEq] at h
    exact le_of_eq h.1.symm
  | cons w₀ ws ih =>
    intro acc s w h
    simp only [autoLoop] at h
    rcases hf : fitPeak (C - w₀ / 2) (C + w₀ / 2) with _ | f <;> rw [hf] at h
    · obtain ⟨hmin, hacc⟩ := ih acc s w h
      refine ⟨?_, hacc⟩
      intro w' hw' g hg
      rcases List.mem_cons.mp hw' with rfl | hw''
      · rw [hf] at hg
        exact absurd hg (by simp)
      · exact hmin w' hw'' g hg
    · cases acc with
      | none =>
        obtain ⟨hmin, hacc⟩ := ih _ s w h
        have hsf : s ≤ score f := hacc (score f) w₀ rfl
        refine ⟨?_, by simp⟩
        intro w' hw' g hg
        rcases List.mem_cons.mp hw' with rfl | hw''
        · rw [hf] at hg
          simp only [Option.some.injEq] at hg
          rw [← hg]
          exact hsf
        · exact hmin w' hw'' g hg
      | some p =>
        obtain ⟨best, bw⟩ := p
        have h' : (if score f < best then autoLoop fitPeak C ws (some (score f, w₀))
            else autoLoop fitPeak C ws (some (best, bw))) = some (s, w) := h
        by_cases hlt : score f < best
        · rw [if_pos hlt] at h'
          obtain ⟨hmin, hacc⟩ := ih _ s w h'
          have hsf : s ≤ score f := hacc (score f) w₀ rfl
          refine ⟨?_, ?_⟩
          · intro w' hw' g hg
            rcases List.mem_cons.mp hw' with rfl | hw''
            · rw [hf] at hg
              simp only [Option.some.injEq] at hg
              rw [← hg]
              exact hsf
            · exact hmin w' hw'' g hg
          · intro s' w'' hacc'
            simp only [Option.some.injEq, Prod.mk.injEq] at hacc'
            obtain ⟨rfl, rfl⟩ := hacc'
            linarith
        · rw [if_neg hlt] at h'
          obtain ⟨hmin, hacc⟩ := ih _ s w h'
          have hsb : s ≤ best := hacc best bw rfl
          refine ⟨?_, ?_⟩
          · intro w' hw' g hg
            rcases List.mem_cons.mp hw' with rfl | hw''
            · rw [hf] at hg
              simp only [Option.some.injEq] at hg
              rw [← hg]
              linarith [not_lt.mp hlt]
            · exact hmin w' hw'' g hg
          · intro s' w'' hacc'
            simp only [Option.some.injEq, Prod.mk.injEq] at hacc'
            obtain ⟨rfl, rfl⟩ := hacc'
            exact hsb

/-- **C5.**  `get_fit_auto` evaluates the candidate widths
`MaxWidth, MaxWidth - WidthIntervals, …, MinWidth`; a width whose fit
fails is never the selected minimum; the selected width minimizes the
badness score `(σ_A/A)² + (σ_Γ/Γ)² + (σ_Ftrap/Ftrap)²` among all
candidate widths whose fit succeeded; the returned fit is the re-run of
the fit at that width; and the operation fails (returns `none`, the
source's unbound `BestWidth`) exactly when every candidate width's fit
failed. -/
theorem get_fit_auto_spec (fitPeak : ℚ → ℚ → Option FitR)
    (CentralFreq MaxWidth MinWidth WidthIntervals : ℚ)
    (hW : 0 < WidthIntervals) (k : ℕ)
    (hk : MaxWidth - MinWidth = (k : ℚ) * WidthIntervals) :
    (∀ w, w ∈ widthLadder MaxWidth MinWidth WidthIntervals ↔
        ∃ i : ℕ, i ≤ k ∧ w = MaxWidth - (i : ℚ) * WidthIntervals) ∧
      (get_fit_auto fitPeak CentralFreq MaxWidth MinWidth WidthIntervals = none ↔
        ∀ w ∈ widthLadder MaxWidth MinWidth WidthIntervals,
          fitPeak (CentralFreq - w / 2) (CentralFreq + w / 2) = none) ∧
      (∀ r, get_fit_auto fitPeak CentralFreq MaxWidth MinWidth WidthIntervals = some r →
        ∃ w ∈ widthLadder MaxWidth MinWidth WidthIntervals,
          fitPeak (CentralFreq - w / 2) (CentralFreq + w / 2) = some r ∧
            ∀ w' ∈ widthLadder MaxWidth MinWidth WidthIntervals,
              ∀ g, fitPeak (CentralFreq - w' / 2) (CentralFreq + w' / 2) = some g →
                score r ≤ score g) := by
  have hladder : widthLadder MaxWidth MinWidth WidthIntervals =
      (List.range (k + 1)).map (fun i : ℕ => MaxWidth - (i : ℚ) * WidthIntervals) := by
    have hq : (MaxWidth - (MinWidth - WidthIntervals)) / WidthIntervals = ((k + 1 : ℕ) : ℚ) := by
      rw [show MaxWidth - (MinWidth - WidthIntervals) =
        (MaxWidth - MinWidth) + WidthIntervals by ring, hk]
      push_cast
      field_simp
      ring
    simp only [widthLadder, hq, Int.ceil_natCast]
    simp
  have hmem : ∀ w, w ∈ widthLadder MaxWidth MinWidth WidthIntervals ↔
      ∃ i : ℕ, i ≤ k ∧ w = MaxWidth - (i : ℚ) * WidthIntervals := by
    intro w
    rw [hladder]
    constructor
    · intro hw
      obtain ⟨i, hi, hEq⟩ := List.mem_map.mp hw
      rw [List.mem_range] at hi
      exact ⟨i, by omega, hEq.symm⟩
    · rintro ⟨i, hik, rfl⟩
      exact List.mem_map.mpr ⟨i, List.mem_range.mpr (by omega), rfl⟩
  refine ⟨hmem, ?_, ?_⟩
  · rcases hal : autoLoop fitPeak CentralFreq
        (widthLadder MaxWidth MinWidth WidthIntervals) none with _ | p
    · have hres : get_fit_auto fitPeak CentralFreq MaxWidth MinWidth WidthIntervals = none := by
        unfold get_fit_auto
        rw [hal]
      rw [hres]
      simp only [true_iff]
      exact ((autoLoop_eq_none_iff _ _ _ _).mp hal).2
    · obtain ⟨s, bw⟩ := p
      rcases autoLoop_mem fitPeak CentralFreq _ none s bw hal with h1 | ⟨hmem', f, hf, _⟩
      · exact absurd h1 (by simp)
      have hres : get_fit_auto fitPeak CentralFreq MaxWidth MinWidth WidthIntervals =
          fitPeak (CentralFreq - bw / 2) (CentralFreq + bw / 2) := by
        unfold get_fit_auto
        rw [hal]
      rw [hres, hf]
      constructor
      · intro hcon
        exact absurd hcon (by simp)
      · intro hall
        have := hall bw hmem'
        rw [this] at hf
        exact absurd hf (by simp)
  · intro r hr
    rcases hal : autoLoop fitPeak CentralFreq
        (widthLadder MaxWidth MinWidth WidthIntervals) none with _ | p
    · unfold get_fit_auto at hr
      rw [hal] at hr
      exact absurd hr (by simp)
    · obtain ⟨s, bw⟩ := p
      have hr' : fitPeak (CentralFreq - bw / 2) (CentralFreq + bw / 2) = some r := by
        unfold get_fit_auto at hr
        rw [hal] at hr
        exact hr
      rcases autoLoop_mem fitPeak CentralFreq _ none s bw hal with h1 | ⟨hmem', f, hf, hsf⟩
      · exact absurd h1 (by simp)
      have hmin := (autoLoop_min fitPeak CentralFreq _ none s bw hal).1
      have hrf : r = f := by
        rw [hr'] at hf
        simp only [Option.some.injEq] at hf
        exact hf
      refine ⟨bw, hmem', hr', ?_⟩
      intro w' hw' g hg
      have hsg := hmin w' hw' g hg
      rw [hrf, hsf]
      exact hsg

/-- Witness for `get_fit_auto_spec` with the always-failing fit oracle
on the ladder from width 2 down to width 1 in steps of 1: the operation
fails. -/
theorem get_fit_auto_spec_witness :
    get_fit_auto (fun _ _ => (none : Option FitR)) 5 2 1 1 = none :=
  ((get_fit_auto_spec (fun _ _ => none) 5 2 1 1 (by norm_num) 1 (by norm_num)).2.1).mpr
    (fun _ _ => rfl)

/-- **C6.**  Whenever the search window handed to `get_fit_from_peak`
collapses to a single frequency index (lower and upper window index
coincide), or the half-max crossing cannot be found on either side of
the located peak inside the window (the corresponding search slice is
empty), the operation returns the warned NaN-triple sentinel
(`PeakOut.nanTriple`) instead of a hard failure. -/
theorem get_fit_from_peak_window_nan (getFit : ℚ → ℚ → ℚ → ℚ → Except FitErr FitR)
    (freqs PSD : List ℚ) (lowerLimit upperLimit : ℚ) (hne : freqs ≠ []) :
    (gffp_index freqs lowerLimit = gffp_index freqs upperLimit →
      get_fit_from_peak getFit freqs PSD lowerLimit upperLimit = PeakOut.nanTriple) ∧
      (∀ li ui MaxPSD MinPSD ci, li = gffp_index freqs lowerLimit →
        ui = gffp_index freqs upperLimit → li ≠ ui →
        (sliceL PSD li ui).max? = some MaxPSD →
        (sliceL PSD li ui).min? = some MinPSD →
        ci = freqs.indexOf (freqs.getD (PSD.indexOf MaxPSD) 0) →
        (sliceL PSD li ci = [] ∨ sliceL PSD ci ui = []) →
        get_fit_from_peak getFit freqs PSD lowerLimit upperLimit = PeakOut.nanTriple) := by
  constructor
  · intro h
    simp only [get_fit_from_peak]
    rw [if_neg hne, if_pos h]
  · intro li ui MaxPSD MinPSD ci hli hui hlu hmax hmin hci hdisj
    subst hli
    subst hui
    subst hci
    simp only [get_fit_from_peak]
    rw [if_neg hne, if_neg hlu, hmax, hmin]
    dsimp only
    rcases hdisj with hL | hR
    · rw [hL]
      rfl
    · rcases hL' : take_closest (sliceL PSD (gffp_index freqs lowerLimit)
          (freqs.indexOf (freqs.getD (PSD.indexOf MaxPSD) 0)))
          (MinPSD + (MaxPSD - MinPSD) / 2) with _ | lv
      · rfl
      · dsimp only
        rw [hR]
        rfl

/-- Witness for `get_fit_from_peak_window_nan`: with `freqs = [0, 1]`,
`PSD = [1, 2]` and the window `[0, 0]`, both window indices coincide and
the NaN triple is returned. -/
theorem get_fit_from_peak_window_nan_witness :
    get_fit_from_peak (fun _ _ _ _ => Except.error FitErr.typeError) [0, 1] [1, 2] 0 0 =
      PeakOut.nanTriple :=
  (get_fit_from_peak_window_nan (fun _ _ _ _ => Except.error FitErr.typeError)
    [0, 1] [1, 2] 0 0 (by simp)).1 rfl

end Datahandling
